import Mathlib

/-!
Verification of the translation-session engine of `transtui`
(`src/app.rs`, `src/file_operations.rs`, `src/handlers.rs`).

The Rust code is shallowly embedded: `serde_json::Value` becomes the
inductive `Value`, entry vectors become `List Entry`, the editing state
struct becomes `EditingState`, file-system effects become an explicit
`World` (association list of path/content plus a trace of write
operations), and fallible operations return `Except`.
-/

namespace Transtui

/-- JSON values (`serde_json::Value`). Numbers are kept abstract as
integers rendered by `toString`; the claims under study never compute
on numbers. -/
inductive Value where
  | null : Value
  | bool (b : Bool) : Value
  | num (n : Int) : Value
  | str (s : String) : Value
  | arr (xs : List Value) : Value
  | obj (fields : List (String × Value)) : Value

/-- One translation unit (`app.rs` struct `Entry`). -/
structure Entry where
  key : String
  original : Value
  translated : Value
  is_translated : Bool

/-- File paths: only the stem and the extension matter to the code
(`Path::with_extension`, `file_stem`), so a path is modelled as the
pair of both. -/
structure FPath where
  stem : String
  ext : String
deriving DecidableEq

/-- `Path::with_extension`. -/
def withExtension (p : FPath) (e : String) : FPath :=
  { stem := p.stem, ext := e }

/-- The `{stem}_traduzido.json` snapshot path built by
`save_translated_json` / `load_existing_translations`. -/
def snapshotPath (p : FPath) : FPath :=
  { stem := p.stem ++ "_traduzido", ext := "json" }

/-- The editing-session state (`app.rs` struct `EditingState`).
`table_state`/`search_selection` model `TableState::selected()` and the
selection `Option<usize>`; `save_notification: Option<Instant>` is
modelled by whether it is armed. -/
structure EditingState where
  entries : List Entry
  table_state : Option Nat
  original_path : FPath
  editing : Option Nat
  input : String
  cursor_pos : Nat
  search_query : String
  search_mode : Bool
  search_results : List Nat
  search_selection : Option Nat
  total_keys : Nat
  translated_keys : Nat
  save_notification : Bool

/-- `str::starts_with` on character lists. -/
def leadsWith : List Char → List Char → Bool
  | [], _ => true
  | _ :: _, [] => false
  | a :: as, b :: bs => a == b && leadsWith as bs

/-- Contiguous-substring occurrence on character lists; `hasSegment pat s`
is `str::contains` of `pat` in `s`. -/
def hasSegment (pat : List Char) : List Char → Bool
  | [] => pat.isEmpty
  | c :: t => leadsWith pat (c :: t) || hasSegment pat t

/-- Rust `str::contains(pat)` (contiguous substring). -/
def strContains (s pat : String) : Bool :=
  hasSegment pat.toList s.toList

/-- Rust `str::to_lowercase`, modelled character-wise. -/
def lowercase (s : String) : String :=
  String.mk (s.toList.map Char.toLower)

/-- `App::update_search_results` (`app.rs` lines 93-110): recompute the
match-index list by case-insensitive substring match of the query
against each entry key, then reset the selection to the first match. -/
def update_search_results (st : EditingState) : EditingState :=
  let search_lower := lowercase st.search_query
  let results :=
    ((st.entries.enum).filter
      (fun p => strContains (lowercase p.2.key) search_lower)).map (fun p => p.1)
  { st with
    search_results := results
    search_selection := if !results.isEmpty then some 0 else none }

/-- The `KeyCode::Up` arm of search mode in `handle_editing`
(`handlers.rs` lines 130-139). -/
def searchMoveUp (st : EditingState) : EditingState :=
  if !st.search_results.isEmpty then
    let new_selection :=
      match st.search_selection with
      | some current => if current > 0 then some (current - 1) else none
      | none => some (st.search_results.length - 1)
    { st with search_selection := new_selection }
  else st

/-- The `KeyCode::Down` arm of search mode in `handle_editing`
(`handlers.rs` lines 140-151). -/
def searchMoveDown (st : EditingState) : EditingState :=
  if !st.search_results.isEmpty then
    let new_selection :=
      match st.search_selection with
      | some current =>
          if current < st.search_results.length - 1 then some (current + 1) else none
      | none => some 0
    { st with search_selection := new_selection }
  else st

/-- The structured completion ledger (`app.rs` struct
`TranslatedKeysData`). -/
structure TranslatedKeysData where
  keys : List String
  last_updated : String

/-- Escape for JSON string rendering (quote and backslash). -/
def jsonEscape (s : String) : String :=
  s.toList.foldl
    (fun acc c =>
      if c == '"' then acc ++ "\\\""
      else if c == '\\' then acc ++ "\\\\"
      else acc.push c) ""

mutual

/-- `serde_json::Value::to_string` (compact rendering). -/
def jsonRender : Value → String
  | .null => "null"
  | .bool b => if b then "true" else "false"
  | .num n => toString n
  | .str s => "\"" ++ jsonEscape s ++ "\""
  | .arr xs => "[" ++ String.intercalate "," (jsonRenderList xs) ++ "]"
  | .obj fs => "\x7b" ++ String.intercalate "," (jsonRenderFields fs) ++ "\x7d"

def jsonRenderList : List Value → List String
  | [] => []
  | v :: vs => jsonRender v :: jsonRenderList vs

def jsonRenderFields : List (String × Value) → List String
  | [] => []
  | kv :: fs => ("\"" ++ jsonEscape kv.1 ++ "\":" ++ jsonRender kv.2) :: jsonRenderFields fs

end

/-- `ui.rs` `format_json_value`: `value.to_string().replace('"', "")`. -/
def format_json_value (v : Value) : String :=
  String.mk ((jsonRender v).toList.filter (fun c => c != '"'))

/-- `toml::to_string` output for `TranslatedKeysData` (only consulted when
a structured ledger would be re-read through the legacy text branch,
which no claim exercises). -/
def tomlRenderLedger (d : TranslatedKeysData) : String :=
  "keys = [" ++
    String.intercalate ", " (d.keys.map (fun k => "\"" ++ jsonEscape k ++ "\"")) ++
    "]\nlast_updated = \"" ++ d.last_updated ++ "\"\n"

/-- Contents of a file on disk, tagged by how external parsers read it:
a text that parses as the structured TOML ledger, a text that parses as
a flat JSON object, or any other text. -/
inductive FileContent where
  | ledgerFile (data : TranslatedKeysData)
  | jsonObjFile (m : List (String × Value))
  | textFile (s : String)

/-- The raw text of a file (`fs::read_to_string`). -/
def fileRawText : FileContent → String
  | .ledgerFile d => tomlRenderLedger d
  | .jsonObjFile m => jsonRender (.obj m)
  | .textFile s => s

/-- `toml::from_str::<TranslatedKeysData>`: succeeds exactly on a
structured-ledger text. -/
def fileAsLedger : FileContent → Option TranslatedKeysData
  | .ledgerFile d => some d
  | _ => none

/-- `serde_json::from_str` succeeding as `Value::Object`: exactly on a
flat-JSON-object text. -/
def fileAsJsonObj : FileContent → Option (List (String × Value))
  | .jsonObjFile m => some m
  | _ => none

/-- One file-system effect. -/
inductive FsOp where
  | write (p : FPath) (c : FileContent)
  | remove (p : FPath)

/-- The file system seen by the program: current contents, the set of
paths on which writes/removals fail, and the trace of effects performed
so far. Reads are modelled as total (a load miss is `none`). -/
structure World where
  fs : List (FPath × FileContent)
  failing : List FPath
  trace : List FsOp

def fsRead : List (FPath × FileContent) → FPath → Option FileContent
  | [], _ => none
  | qc :: t, p => if qc.1 = p then some qc.2 else fsRead t p

def fsExists (fs : List (FPath × FileContent)) (p : FPath) : Bool :=
  (fsRead fs p).isSome

def fsSet : List (FPath × FileContent) → FPath → FileContent → List (FPath × FileContent)
  | [], p, c => [(p, c)]
  | qc :: t, p, c => if qc.1 = p then (qc.1, c) :: t else qc :: fsSet t p c

def fsDel : List (FPath × FileContent) → FPath → List (FPath × FileContent)
  | [], _ => []
  | qc :: t, p => if qc.1 = p then fsDel t p else qc :: fsDel t p

/-- `fs::write`: fails on the failing paths, otherwise updates the file
and appends to the trace. -/
def fsWrite (w : World) (p : FPath) (c : FileContent) : Except (String × World) World :=
  if p ∈ w.failing then .error ("write failed", w)
  else .ok { w with fs := fsSet w.fs p c, trace := w.trace ++ [.write p c] }

/-- `fs::remove_file`. -/
def fsRemove (w : World) (p : FPath) : Except (String × World) World :=
  if p ∈ w.failing then .error ("remove failed", w)
  else .ok { w with fs := fsDel w.fs p, trace := w.trace ++ [.remove p] }

/-- Rust `str::split(';')` on a character list: splits at every
semicolon, keeping empty pieces. -/
def splitOnSemicolon : List Char → List (List Char)
  | [] => [[]]
  | c :: t =>
    if c == ';' then [] :: splitOnSemicolon t
    else
      match splitOnSemicolon t with
      | [] => [[c]]
      | s :: rest => (c :: s) :: rest

/-- Rust `str::trim` on a character list (whitespace stripped from both
ends). -/
def trimChars (l : List Char) : List Char :=
  ((l.dropWhile Char.isWhitespace).reverse.dropWhile Char.isWhitespace).reverse

/-- The legacy-text parse of a ledger (`content.split(';')`, trimmed,
empties dropped) — `file_operations.rs` lines 43-47. -/
def parseLegacy (content : String) : List String :=
  (((splitOnSemicolon content.toList).map trimChars).filter
    (fun l => !l.isEmpty)).map (fun l => String.mk l)

/-- `file_operations::load_translated_keys` (lines 32-52): absent file
yields `[]`; a path with extension `toml` is parsed as the structured
ledger (parse failure is an error); any other path is read through the
legacy `;`-split format. -/
def load_translated_keys (fs : List (FPath × FileContent)) (path : FPath) :
    Except String (List String) :=
  match fsRead fs path with
  | none => .ok []
  | some c =>
    if path.ext = "toml" then
      match fileAsLedger c with
      | some d => .ok d.keys
      | none => .error "invalid ledger file"
    else
      .ok (parseLegacy (fileRawText c))

/-- `file_operations::save_translated_keys` (lines 54-78): write the
structured ledger (keys of the `is_translated` entries, stamped `now`),
then delete the legacy `.txt` file if it exists. -/
def save_translated_keys (now : String) (w : World) (path : FPath) (entries : List Entry) :
    Except (String × World) World :=
  let translated := (entries.filter (fun e => e.is_translated)).map (fun e => e.key)
  let data : TranslatedKeysData := { keys := translated, last_updated := now }
  match fsWrite w path (.ledgerFile data) with
  | .error ew => .error ew
  | .ok w1 =>
    let txt_path := withExtension path "txt"
    if fsExists w1.fs txt_path then fsRemove w1 txt_path else .ok w1

/-- `serde_json::Map::insert`, modelled on an association list: replace
the value in place if the key is present, else append. -/
def mapInsert (m : List (String × Value)) (k : String) (v : Value) :
    List (String × Value) :=
  if m.any (fun p => p.1 == k) then
    m.map (fun p => if p.1 == k then (p.1, v) else p)
  else m ++ [(k, v)]

/-- The snapshot map built by `save_translated_json`: every entry's
`(key, translated)` inserted in order. -/
def entriesMap (entries : List Entry) : List (String × Value) :=
  entries.foldl (fun m e => mapInsert m e.key e.translated) []

/-- `file_operations::save_translated_json` (lines 80-101): write the
`{key: translated}` snapshot for every entry to the `_traduzido.json`
path, then re-invoke `save_translated_keys` on the `.toml` path. -/
def save_translated_json (now : String) (w : World) (st : EditingState) :
    Except (String × World) World :=
  let translated_map := entriesMap st.entries
  let new_path := snapshotPath st.original_path
  match fsWrite w new_path (.jsonObjFile translated_map) with
  | .error ew => .error ew
  | .ok w1 => save_translated_keys now w1 (withExtension st.original_path "toml") st.entries

/-- `file_operations::load_existing_translations` (lines 103-120):
the prior snapshot map if the `_traduzido.json` file exists and parses
as a flat object, otherwise the empty map. -/
def load_existing_translations (fs : List (FPath × FileContent)) (original_path : FPath) :
    List (String × Value) :=
  match fsRead fs (snapshotPath original_path) with
  | none => []
  | some c =>
    match fileAsJsonObj c with
    | some m => m
    | none => []

/-- The entry-building loop of `handle_file_selection` (`handlers.rs`
lines 52-74): one entry per source key in source order; `translated`
from the prior snapshot when present, else a copy of `original`;
`is_translated` iff the key is in the completed-key list. -/
def buildEntries (original_map existing : List (String × Value))
    (translated_keys : List String) : List Entry :=
  original_map.map (fun kv =>
    { key := kv.1
      original := kv.2
      translated :=
        match existing.lookup kv.1 with
        | some tv => tv
        | none => kv.2
      is_translated := translated_keys.contains kv.1 })

/-- The `translated_count` accumulated by the same loop. -/
def translatedCountOf (original_map : List (String × Value))
    (translated_keys : List String) : Nat :=
  ((original_map.filter (fun kv => translated_keys.contains kv.1)).length)

/-- The `EditingState` constructed by `handle_file_selection`
(`handlers.rs` lines 76-95). -/
def mkEditingState (file_path : FPath) (original_map existing : List (String × Value))
    (translated_keys : List String) : EditingState :=
  { entries := buildEntries original_map existing translated_keys
    table_state := some 0
    original_path := file_path
    editing := none
    input := ""
    cursor_pos := 0
    search_query := ""
    search_mode := false
    search_results := []
    search_selection := none
    total_keys := original_map.length
    translated_keys := translatedCountOf original_map translated_keys
    save_notification := false }

/-- The open-document flow of `handle_file_selection` (`handlers.rs`
lines 41-97): read the prior snapshot (best-effort), load the ledger
from the `.toml` path, and build the session. -/
def openSession (w : World) (file_path : FPath) (original_map : List (String × Value)) :
    Except String EditingState :=
  let existing := load_existing_translations w.fs file_path
  match load_translated_keys w.fs (withExtension file_path "toml") with
  | .error e => .error e
  | .ok tks => .ok (mkEditingState file_path original_map existing tks)

/-- The key events the handlers dispatch on (`crossterm KeyCode`). -/
inductive Key where
  | up
  | down
  | left
  | right
  | enter
  | esc
  | backspace
  | delete
  | home
  | endKey
  | f2
  | char (c : Char)

/-- `App::toggle_translation` (`app.rs` lines 112-129), in-memory part:
flip the selected entry's flag and adjust the counter by one (the
ledger write that follows does not touch the session state). -/
def toggle_translation (st : EditingState) : EditingState :=
  match st.table_state with
  | none => st
  | some selected =>
    match st.entries[selected]? with
    | none => st
    | some entry =>
      let entry1 := { entry with is_translated := !entry.is_translated }
      { st with
        entries := st.entries.set selected entry1
        translated_keys :=
          if entry1.is_translated then st.translated_keys + 1
          else st.translated_keys - 1 }

/-- Character count of the draft (`input.chars().count()`). -/
def charCount (s : String) : Nat := s.toList.length

/-- Insert a character at a character position (the Rust code computes
the byte offset of the character position and inserts there). -/
def insertChar (s : String) (pos : Nat) (c : Char) : String :=
  String.mk (s.toList.take pos ++ [c] ++ s.toList.drop pos)

/-- Remove the character at a character position. -/
def removeCharAt (s : String) (pos : Nat) : String :=
  String.mk (s.toList.take pos ++ s.toList.drop (pos + 1))

/-- `String::pop`. -/
def strPop (s : String) : String :=
  String.mk s.toList.dropLast

/-- The `KeyCode::Enter` arm of field-edit mode (`handlers.rs` lines
167-179): commit the draft as the new translated string value and leave
edit mode. -/
def confirmEdit (st : EditingState) (editing_index : Nat) : EditingState :=
  let entries1 :=
    match st.entries[editing_index]? with
    | some entry =>
      let value := if st.input.isEmpty then Value.str "" else Value.str st.input
      st.entries.set editing_index { entry with translated := value }
    | none => st.entries
  { st with entries := entries1, editing := none, input := "", cursor_pos := 0 }

/-- The `KeyCode::Esc` arm of field-edit mode (`handlers.rs` lines
180-184): discard the draft and leave edit mode. -/
def cancelEdit (st : EditingState) : EditingState :=
  { st with editing := none, input := "", cursor_pos := 0 }

/-- The `KeyCode::Enter` arm of normal navigation (`handlers.rs` lines
280-286): enter field-edit mode seeded with the rendered translated
value. (The Rust indexes `entries[selected]`, which panics out of
range; modelled as a no-op on the unreachable out-of-range case.) -/
def beginEdit (st : EditingState) : EditingState :=
  match st.table_state with
  | none => st
  | some selected =>
    match st.entries[selected]? with
    | none => st
    | some entry =>
      let seeded := format_json_value entry.translated
      { st with editing := some selected, input := seeded, cursor_pos := charCount seeded }

/-- The `KeyCode::Enter` arm of search mode (`handlers.rs` lines
113-123): jump the table cursor to the selected match, then clear the
search. -/
def searchConfirm (st : EditingState) : EditingState :=
  let table1 :=
    match st.search_selection with
    | some selected =>
      match st.search_results[selected]? with
      | some entry_index => some entry_index
      | none => st.table_state
    | none => st.table_state
  { st with
    table_state := table1
    search_mode := false
    search_query := ""
    search_results := []
    search_selection := none }

/-- The search-mode dispatch of `handle_editing` (`handlers.rs` lines
111-163). -/
def searchModeStep (key : Key) (st : EditingState) : EditingState :=
  match key with
  | .enter => searchConfirm st
  | .esc =>
    { st with search_mode := false, search_query := "", search_results := [],
              search_selection := none }
  | .up => searchMoveUp st
  | .down => searchMoveDown st
  | .char c => update_search_results { st with search_query := st.search_query.push c }
  | .backspace => update_search_results { st with search_query := strPop st.search_query }
  | _ => st

/-- The field-edit-mode dispatch of `handle_editing` (`handlers.rs`
lines 165-247). -/
def fieldEditStep (key : Key) (st : EditingState) (editing_index : Nat) : EditingState :=
  match key with
  | .enter => confirmEdit st editing_index
  | .esc => cancelEdit st
  | .left => if st.cursor_pos > 0 then { st with cursor_pos := st.cursor_pos - 1 } else st
  | .right =>
    if st.cursor_pos < charCount st.input then { st with cursor_pos := st.cursor_pos + 1 }
    else st
  | .char c =>
    { st with input := insertChar st.input st.cursor_pos c, cursor_pos := st.cursor_pos + 1 }
  | .backspace =>
    if st.cursor_pos > 0 then
      { st with input := removeCharAt st.input (st.cursor_pos - 1),
                cursor_pos := st.cursor_pos - 1 }
    else st
  | .delete =>
    if st.cursor_pos < charCount st.input then
      { st with input := removeCharAt st.input st.cursor_pos }
    else st
  | .home => { st with cursor_pos := 0 }
  | .endKey => { st with cursor_pos := charCount st.input }
  | _ => st

/-- The normal-navigation dispatch of `handle_editing` (`handlers.rs`
lines 249-298), in-memory effect on the `EditingState`. The `b` save is
modelled on its success path (arming the notification); the `q`/Esc
arms only change app-level state. -/
def normalModeStep (key : Key) (st : EditingState) : EditingState :=
  match key with
  | .char c =>
    if c == 't' || c == 'T' then toggle_translation st
    else if c == 'b' || c == 'B' then { st with save_notification := true }
    else if c == 's' || c == 'S' then
      update_search_results { st with search_mode := true, search_query := "" }
    else st
  | .up =>
    let selected := st.table_state.getD 0
    { st with table_state := some (selected - 1) }
  | .down =>
    let selected := st.table_state.getD 0
    if selected + 1 < st.entries.length then { st with table_state := some (selected + 1) }
    else st
  | .enter => beginEdit st
  | _ => st

/-- `handle_editing` (`handlers.rs` lines 109-302) as a step function on
the session state: search mode masks field-edit masks normal
navigation. -/
def editStep (key : Key) (st : EditingState) : EditingState :=
  if st.search_mode then searchModeStep key st
  else
    match st.editing with
    | some editing_index => fieldEditStep key st editing_index
    | none => normalModeStep key st

/-- The four top-level states (`app.rs` enum `AppState`). -/
inductive AppState where
  | FileSelection
  | Editing
  | SaveConfirmation
  | Exiting
deriving DecidableEq

/-- `app.rs` struct `SaveConfirmationState`. -/
structure SaveConfirmationState where
  message : String
  return_to : AppState

/-- The application state (`app.rs` struct `App`), restricted to the
parts the session engine mutates. -/
structure App where
  state : AppState
  editing : Option EditingState
  save_confirmation : Option SaveConfirmationState

/-- `App::save_current_file` (`app.rs` lines 131-137): run the snapshot
save and arm the notification only on success. The triple mirrors the
in-place mutation order of the Rust: on an error the `App` is returned
as it stood at the failure point. -/
def save_current_file (now : String) (app : App) (w : World) :
    Except String Unit × App × World :=
  match app.editing with
  | none => (.ok (), app, w)
  | some st =>
    match save_translated_json now w st with
    | .error ew => (.error ew.1, app, ew.2)
    | .ok w1 =>
      (.ok (), { app with editing := some { st with save_notification := true } }, w1)

/-- `handle_save_confirmation` (`handlers.rs` lines 304-336).
`save_exit_msg` is the locale's `save_exit_confirmation` string. -/
def handle_save_confirmation (now save_exit_msg : String) (key : Key)
    (app : App) (w : World) : Except String Unit × App × World :=
  match app.save_confirmation with
  | none => (.ok (), app, w)
  | some confirmation =>
    let should_exit := confirmation.message == save_exit_msg
    let return_to := confirmation.return_to
    match key with
    | .enter | .char ' ' =>
      if return_to = AppState.Editing then
        match save_current_file now app w with
        | (.error e, app1, w1) => (.error e, app1, w1)
        | (.ok _, app1, w1) =>
          let app2 :=
            { app1 with state := if should_exit then AppState.Exiting
                                 else AppState.FileSelection }
          (.ok (), app2, w1)
      else (.ok (), { app with state := return_to }, w)
    | .esc => (.ok (), { app with state := return_to }, w)
    | _ => (.ok (), app, w)

/-- Count of entries flagged `is_translated` (a live recount). -/
def countTranslated (entries : List Entry) : Nat :=
  (entries.filter (fun e => e.is_translated)).length

/-- The session invariant of the spec: the incremental counter equals a
live recount. -/
def Inv (st : EditingState) : Prop :=
  st.translated_keys = countTranslated st.entries

instance (st : EditingState) : Decidable (Inv st) := by
  unfold Inv; infer_instance

theorem hasSegment_nil (s : List Char) : hasSegment [] s = true := by
  induction s with
  | nil => rfl
  | cons c t ih => simp [hasSegment, leadsWith]

theorem strContains_empty (s : String) : strContains s "" = true := by
  simp [strContains, hasSegment_nil]

/-- A session state with everything empty, used to build concrete
states for witnesses. -/
def baseState : EditingState :=
  { entries := []
    table_state := none
    original_path := { stem := "doc", ext := "json" }
    editing := none
    input := ""
    cursor_pos := 0
    search_query := ""
    search_mode := false
    search_results := []
    search_selection := none
    total_keys := 0
    translated_keys := 0
    save_notification := false }

/-- A concrete entry for witnesses. -/
def demoEntry (k : String) (b : Bool) : Entry :=
  { key := k, original := Value.str "Hello", translated := Value.str "Hello",
    is_translated := b }

theorem update_search_results_empty_query (st : EditingState)
    (hq : st.search_query = "") :
    (update_search_results st).search_results = List.range st.entries.length ∧
    (update_search_results st).search_selection =
      (if st.entries.isEmpty then none else some 0) := by
  have hlow : lowercase "" = "" := rfl
  have hfilter :
      (st.entries.enum.filter
        (fun p => strContains (lowercase p.2.key) (lowercase st.search_query))) =
      st.entries.enum := by
    rw [hq, hlow]
    apply List.filter_eq_self.mpr
    intro p _
    exact strContains_empty _
  constructor
  · show ((st.entries.enum.filter _).map _) = _
    rw [hfilter]
    exact List.enum_map_fst st.entries
  · show (if !((st.entries.enum.filter _).map _).isEmpty then some 0 else none) = _
    rw [hfilter]
    rcases st.entries with _ | ⟨e, es⟩ <;> simp [List.enum]

/-- C2 counterexample: a one-entry session with the empty query; the
search yields match list `[0]` and selection `some 0`, not an empty
list and `none`. -/
def c2State : EditingState :=
  { baseState with entries := [demoEntry "a" false], search_mode := true,
                   total_keys := 1 }

/-- C2 (counterexample): on the concrete one-entry session with the
empty query, the claimed "empty match-index list and no selection" is
false — the code returns all indices and selects the first. -/
theorem empty_query_claim_false :
    ¬ ((update_search_results c2State).search_results = [] ∧
       (update_search_results c2State).search_selection = none) := by
  intro h
  have h1 : (update_search_results c2State).search_results = [0] := by rfl
  rw [h1] at h
  exact absurd h.1 (by simp)

/-- C2 (amended): for every entry list, evaluating the search with the
empty query string yields the full match-index list (every entry index,
in order) and selects the first match (`some 0`) when there is at least
one entry, `none` only when there are no entries: Rust
`str::contains("")` is true for every key. -/
theorem empty_query_matches_all (st : EditingState)
    (hq : st.search_query = "") :
    (update_search_results st).search_results = List.range st.entries.length ∧
    (update_search_results st).search_selection =
      (if st.entries.isEmpty then none else some 0) :=
  update_search_results_empty_query st hq

/-- Witness for C2's amended theorem at the concrete one-entry state. -/
theorem empty_query_matches_all_witness :
    (update_search_results c2State).search_results = List.range 1 ∧
    (update_search_results c2State).search_selection =
      (if (c2State.entries).isEmpty then none else some 0) :=
  empty_query_matches_all c2State rfl

/-- C5: in search mode with a non-empty match list, pressing up with
the selection on the first match yields no selection, and pressing down
with the selection on the last match yields no selection — no
wraparound. -/
theorem search_selection_no_wraparound (st : EditingState)
    (hmode : st.search_mode = true) (hne : st.search_results ≠ []) :
    (st.search_selection = some 0 →
      (editStep Key.up st).search_selection = none) ∧
    (st.search_selection = some (st.search_results.length - 1) →
      (editStep Key.down st).search_selection = none) := by
  have hempty : st.search_results.isEmpty = false := by
    simpa [List.isEmpty_iff] using hne
  constructor
  · intro hsel
    simp [editStep, hmode, searchModeStep, searchMoveUp, hempty, hsel]
  · intro hsel
    simp [editStep, hmode, searchModeStep, searchMoveDown, hempty, hsel]

/-- Concrete search state for the C5 and C10 witnesses: one match. -/
def c5State : EditingState :=
  { baseState with entries := [demoEntry "a" false], search_mode := true,
                   search_results := [0], search_selection := some 0,
                   total_keys := 1 }

/-- Witness for C5 at a one-match list selected at its first (= last)
position. -/
theorem search_selection_no_wraparound_witness :
    (editStep Key.up c5State).search_selection = none ∧
    (editStep Key.down c5State).search_selection = none :=
  ⟨(search_selection_no_wraparound c5State rfl (by decide)).1 rfl,
   (search_selection_no_wraparound c5State rfl (by decide)).2 rfl⟩

/-- C10: in search mode with no current selection, pressing up selects
the last match and pressing down selects the first match when the match
list is non-empty; with an empty match list both leave the selection at
`none`. -/
theorem search_selection_from_none (st : EditingState)
    (hmode : st.search_mode = true) (hsel : st.search_selection = none) :
    (st.search_results ≠ [] →
      (editStep Key.up st).search_selection = some (st.search_results.length - 1) ∧
      (editStep Key.down st).search_selection = some 0) ∧
    (st.search_results = [] →
      (editStep Key.up st).search_selection = none ∧
      (editStep Key.down st).search_selection = none) := by
  constructor
  · intro hne
    have hempty : st.search_results.isEmpty = false := by
      simpa [List.isEmpty_iff] using hne
    constructor
    · simp [editStep, hmode, searchModeStep, searchMoveUp, hempty, hsel]
    · simp [editStep, hmode, searchModeStep, searchMoveDown, hempty, hsel]
  · intro hnil
    have hempty : st.search_results.isEmpty = true := by simp [hnil]
    constructor
    · simp [editStep, hmode, searchModeStep, searchMoveUp, hempty, hsel]
    · simp [editStep, hmode, searchModeStep, searchMoveDown, hempty, hsel]

/-- Concrete search state for the C10 witness: two matches, no
selection. -/
def c10State : EditingState :=
  { baseState with entries := [demoEntry "a" false, demoEntry "b" false],
                   search_mode := true, search_results := [0, 1],
                   search_selection := none, total_keys := 2 }

/-- Witness for C10 at a two-match list with no selection. -/
theorem search_selection_from_none_witness :
    (editStep Key.up c10State).search_selection = some 1 ∧
    (editStep Key.down c10State).search_selection = some 0 :=
  (search_selection_from_none c10State rfl rfl).1 (by decide)

theorem confirmEdit_value (s : String) :
    (if s.isEmpty then Value.str "" else Value.str s) = Value.str s := by
  by_cases h : s.isEmpty
  · rw [if_pos h, (String.isEmpty_iff s).mp h]
  · rw [if_neg h]

/-- C8: in field-edit mode, confirming commits the draft text as the
entry's new translated string value (an empty draft yields
`Value.str ""`, not "no change"), leaves `original`, `is_translated`
and all other entries unmodified, and exits edit mode; cancelling exits
edit mode leaving all entries entirely unchanged. -/
theorem field_edit_confirm_cancel (st : EditingState) (i : Nat) (e : Entry)
    (hmode : st.search_mode = false) (hed : st.editing = some i)
    (he : st.entries[i]? = some e) :
    ((editStep Key.enter st).entries[i]? =
        some { key := e.key, original := e.original,
               translated := Value.str st.input,
               is_translated := e.is_translated } ∧
     (editStep Key.enter st).editing = none ∧
     (∀ j, j ≠ i → (editStep Key.enter st).entries[j]? = st.entries[j]?)) ∧
    ((editStep Key.esc st).entries = st.entries ∧
     (editStep Key.esc st).editing = none) := by
  have hi : i < st.entries.length := (List.getElem?_eq_some.mp he).1
  have hstep1 : editStep Key.enter st = confirmEdit st i := by
    simp [editStep, hmode, hed, fieldEditStep]
  have hstep2 : editStep Key.esc st = cancelEdit st := by
    simp [editStep, hmode, hed, fieldEditStep]
  refine ⟨⟨?_, ?_, ?_⟩, ?_, ?_⟩
  · rw [hstep1]
    simp only [confirmEdit, he, confirmEdit_value]
    rw [List.getElem?_set_eq_of_lt _ hi]
  · rw [hstep1]
    simp [confirmEdit]
  · intro j hj
    rw [hstep1]
    simp only [confirmEdit, he, confirmEdit_value]
    exact List.getElem?_set_ne (fun h => hj h.symm)
  · rw [hstep2]
    simp [cancelEdit]
  · rw [hstep2]
    simp [cancelEdit]

/-- Concrete field-edit state for the C8 witness: editing entry 1 with
draft "Mundo". -/
def c8State : EditingState :=
  { baseState with
      entries := [demoEntry "a" false,
                  { key := "b", original := Value.str "World",
                    translated := Value.str "World", is_translated := false }]
      table_state := some 1
      editing := some 1
      input := "Mundo"
      cursor_pos := 5
      total_keys := 2 }

/-- Witness for C8: confirming the draft "Mundo" on entry `b`. -/
theorem field_edit_confirm_cancel_witness :
    ((editStep Key.enter c8State).entries[1]? =
        some { key := "b", original := Value.str "World",
               translated := Value.str "Mundo", is_translated := false } ∧
     (editStep Key.enter c8State).editing = none ∧
     (∀ j, j ≠ 1 → (editStep Key.enter c8State).entries[j]? =
        c8State.entries[j]?)) ∧
    ((editStep Key.esc c8State).entries = c8State.entries ∧
     (editStep Key.esc c8State).editing = none) :=
  field_edit_confirm_cancel c8State 1
    { key := "b", original := Value.str "World",
      translated := Value.str "World", is_translated := false }
    rfl rfl rfl

theorem list_contains_iff_mem (l : List String) (a : String) :
    l.contains a = true ↔ a ∈ l := by
  simp [List.contains]

/-- C6: loading a source document against a prior snapshot map and a
completed-key set builds exactly one entry per source key, in source
order; `translated` is the prior snapshot's value for the key when
present, else a copy of `original`; `is_translated` is true iff the key
belongs to the completed-key set. -/
theorem load_builds_entries (m ex : List (String × Value)) (c : List String) :
    (buildEntries m ex c).length = m.length ∧
    ∀ (i : Nat) (k : String) (v : Value), m[i]? = some (k, v) →
      ∃ en, (buildEntries m ex c)[i]? = some en ∧
        en.key = k ∧ en.original = v ∧
        en.translated = (ex.lookup k).getD v ∧
        (en.is_translated = true ↔ k ∈ c) := by
  constructor
  · exact List.length_map _ _
  · intro i k v hget
    refine ⟨{ key := k, original := v,
              translated := match ex.lookup k with
                            | some tv => tv
                            | none => v,
              is_translated := c.contains k }, ?_, rfl, rfl, ?_, ?_⟩
    · show (List.map _ m)[i]? = _
      rw [List.getElem?_map, hget]
      rfl
    · show (match ex.lookup k with
            | some tv => tv
            | none => v) = (ex.lookup k).getD v
      cases ex.lookup k <;> rfl
    · exact list_contains_iff_mem c k

/-- Witness for C6 at a two-key document with a one-key snapshot and a
one-key ledger. -/
theorem load_builds_entries_witness :
    (buildEntries [("a", Value.str "Hello"), ("b", Value.str "World")]
        [("b", Value.str "Mundo")] ["a"]).length = 2 ∧
    ∃ en, (buildEntries [("a", Value.str "Hello"), ("b", Value.str "World")]
        [("b", Value.str "Mundo")] ["a"])[1]? = some en ∧
      en.key = "b" ∧ en.original = Value.str "World" ∧
      en.translated = (([("b", Value.str "Mundo")]).lookup "b").getD (Value.str "World") ∧
      (en.is_translated = true ↔ "b" ∈ ["a"]) :=
  ⟨(load_builds_entries _ _ _).1,
   (load_builds_entries [("a", Value.str "Hello"), ("b", Value.str "World")]
      [("b", Value.str "Mundo")] ["a"]).2 1 "b" (Value.str "World") rfl⟩

theorem countTranslated_nil : countTranslated [] = 0 := rfl

theorem countTranslated_cons (e : Entry) (es : List Entry) :
    countTranslated (e :: es) =
      (if e.is_translated then 1 else 0) + countTranslated es := by
  unfold countTranslated
  rw [List.filter_cons]
  cases h : e.is_translated with
  | false => simp [h]
  | true =>
    simp [h]
    omega

theorem countTranslated_set (es : List Entry) (i : Nat) (e e1 : Entry)
    (h : es[i]? = some e) :
    countTranslated (es.set i e1) + (if e.is_translated then 1 else 0) =
    countTranslated es + (if e1.is_translated then 1 else 0) := by
  induction es generalizing i with
  | nil => cases h
  | cons a as ih =>
    cases i with
    | zero =>
      have ha : a = e := by simpa using h
      rw [show (a :: as).set 0 e1 = e1 :: as from rfl,
        countTranslated_cons, countTranslated_cons, ha]
      omega
    | succ n =>
      have h2 : as[n]? = some e := by simpa using h
      have hn := ih n h2
      rw [show (a :: as).set (n + 1) e1 = a :: as.set n e1 from rfl,
        countTranslated_cons, countTranslated_cons]
      omega

theorem countTranslated_pos (es : List Entry) (i : Nat) (e : Entry)
    (h : es[i]? = some e) (ht : e.is_translated = true) :
    1 ≤ countTranslated es := by
  induction es generalizing i with
  | nil => cases h
  | cons a as ih =>
    cases i with
    | zero =>
      have ha : a = e := by simpa using h
      rw [countTranslated_cons, ha, ht, if_pos rfl]
      omega
    | succ n =>
      have h2 : as[n]? = some e := by simpa using h
      have hn := ih n h2
      rw [countTranslated_cons]
      omega

theorem countTranslated_set_same_flag (es : List Entry) (i : Nat) (e e1 : Entry)
    (h : es[i]? = some e) (hf : e1.is_translated = e.is_translated) :
    countTranslated (es.set i e1) = countTranslated es := by
  have := countTranslated_set es i e e1 h
  rw [hf] at this
  omega

theorem inv_of_frame (st st1 : EditingState) (he : st1.entries = st.entries)
    (hk : st1.translated_keys = st.translated_keys) (h : Inv st) : Inv st1 := by
  unfold Inv at *
  rw [he, hk, h]

theorem update_search_results_frame (st : EditingState) :
    (update_search_results st).entries = st.entries ∧
    (update_search_results st).translated_keys = st.translated_keys :=
  ⟨rfl, rfl⟩

theorem searchMoveUp_frame (st : EditingState) :
    (searchMoveUp st).entries = st.entries ∧
    (searchMoveUp st).translated_keys = st.translated_keys := by
  unfold searchMoveUp
  split <;> exact ⟨rfl, rfl⟩

theorem searchMoveDown_frame (st : EditingState) :
    (searchMoveDown st).entries = st.entries ∧
    (searchMoveDown st).translated_keys = st.translated_keys := by
  unfold searchMoveDown
  split <;> exact ⟨rfl, rfl⟩

theorem searchConfirm_frame (st : EditingState) :
    (searchConfirm st).entries = st.entries ∧
    (searchConfirm st).translated_keys = st.translated_keys :=
  ⟨rfl, rfl⟩

theorem beginEdit_frame (st : EditingState) :
    (beginEdit st).entries = st.entries ∧
    (beginEdit st).translated_keys = st.translated_keys := by
  unfold beginEdit
  cases hts : st.table_state with
  | none => exact ⟨rfl, rfl⟩
  | some selected =>
    cases hge : st.entries[selected]? with
    | none => simp [hge]
    | some e => simp [hge]

theorem toggle_translation_eq_none (st : EditingState)
    (hts : st.table_state = none) : toggle_translation st = st := by
  simp only [toggle_translation, hts]

theorem toggle_translation_eq_oob (st : EditingState) (i : Nat)
    (hts : st.table_state = some i) (he : st.entries[i]? = none) :
    toggle_translation st = st := by
  simp only [toggle_translation, hts, he]

theorem toggle_translation_eq (st : EditingState) (i : Nat) (e : Entry)
    (hts : st.table_state = some i) (he : st.entries[i]? = some e) :
    toggle_translation st =
      { st with
        entries := st.entries.set i { e with is_translated := !e.is_translated }
        translated_keys :=
          if !e.is_translated then st.translated_keys + 1
          else st.translated_keys - 1 } := by
  simp only [toggle_translation, hts, he]

theorem confirmEdit_eq_oob (st : EditingState) (i : Nat)
    (he : st.entries[i]? = none) :
    confirmEdit st i = { st with editing := none, input := "", cursor_pos := 0 } := by
  simp only [confirmEdit, he]

theorem confirmEdit_eq (st : EditingState) (i : Nat) (e : Entry)
    (he : st.entries[i]? = some e) :
    confirmEdit st i =
      { st with
        entries := st.entries.set i
          { e with translated := if st.input.isEmpty then Value.str ""
                                 else Value.str st.input }
        editing := none, input := "", cursor_pos := 0 } := by
  simp only [confirmEdit, he]

theorem toggle_translation_inv (st : EditingState) (h : Inv st) :
    Inv (toggle_translation st) := by
  cases hts : st.table_state with
  | none =>
    rw [toggle_translation_eq_none st hts]
    exact h
  | some selected =>
    cases hge : st.entries[selected]? with
    | none =>
      rw [toggle_translation_eq_oob st selected hts hge]
      exact h
    | some entry =>
      rw [toggle_translation_eq st selected entry hts hge]
      unfold Inv at *
      show (if !entry.is_translated then st.translated_keys + 1
            else st.translated_keys - 1) =
        countTranslated (st.entries.set selected
          { entry with is_translated := !entry.is_translated })
      have hset := countTranslated_set st.entries selected entry
        { entry with is_translated := !entry.is_translated } hge
      cases hf : entry.is_translated with
      | false =>
        simp [hf] at hset ⊢
        omega
      | true =>
        have hp : 1 ≤ countTranslated st.entries :=
          countTranslated_pos st.entries selected entry hge hf
        simp [hf] at hset ⊢
        omega

theorem confirmEdit_inv (st : EditingState) (i : Nat) (h : Inv st) :
    Inv (confirmEdit st i) := by
  cases hge : st.entries[i]? with
  | none =>
    rw [confirmEdit_eq_oob st i hge]
    exact h
  | some entry =>
    rw [confirmEdit_eq st i entry hge]
    unfold Inv at *
    show st.translated_keys = countTranslated (st.entries.set i
      { entry with translated := if st.input.isEmpty then Value.str ""
                                 else Value.str st.input })
    rw [countTranslated_set_same_flag st.entries i entry
      { entry with translated := if st.input.isEmpty then Value.str ""
                                 else Value.str st.input } hge rfl]
    exact h

theorem searchModeStep_inv (key : Key) (st : EditingState) (h : Inv st) :
    Inv (searchModeStep key st) := by
  cases key
  case enter =>
    exact inv_of_frame st _ (searchConfirm_frame st).1 (searchConfirm_frame st).2 h
  case up =>
    exact inv_of_frame st _ (searchMoveUp_frame st).1 (searchMoveUp_frame st).2 h
  case down =>
    exact inv_of_frame st _ (searchMoveDown_frame st).1 (searchMoveDown_frame st).2 h
  case char c =>
    refine inv_of_frame st _ ?_ ?_ h <;> simp [searchModeStep, update_search_results]
  case backspace =>
    refine inv_of_frame st _ ?_ ?_ h <;> simp [searchModeStep, update_search_results]
  all_goals refine inv_of_frame st _ ?_ ?_ h <;> simp [searchModeStep]

theorem fieldEditStep_inv (key : Key) (st : EditingState) (i : Nat) (h : Inv st) :
    Inv (fieldEditStep key st i) := by
  cases key
  case enter => exact confirmEdit_inv st i h
  case left =>
    refine inv_of_frame st _ ?_ ?_ h <;>
      by_cases hc : st.cursor_pos > 0 <;> simp [fieldEditStep, hc]
  case right =>
    refine inv_of_frame st _ ?_ ?_ h <;>
      by_cases hc : st.cursor_pos < charCount st.input <;> simp [fieldEditStep, hc]
  case backspace =>
    refine inv_of_frame st _ ?_ ?_ h <;>
      by_cases hc : st.cursor_pos > 0 <;> simp [fieldEditStep, hc]
  case delete =>
    refine inv_of_frame st _ ?_ ?_ h <;>
      by_cases hc : st.cursor_pos < charCount st.input <;> simp [fieldEditStep, hc]
  all_goals refine inv_of_frame st _ ?_ ?_ h <;> simp [fieldEditStep, cancelEdit]

theorem normalModeStep_inv (key : Key) (st : EditingState) (h : Inv st) :
    Inv (normalModeStep key st) := by
  cases key
  case char c =>
    by_cases ht : (c == 't' || c == 'T') = true
    · have hstep : normalModeStep (Key.char c) st = toggle_translation st := by
        simp [normalModeStep, ht]
      rw [hstep]
      exact toggle_translation_inv st h
    · by_cases hb : (c == 'b' || c == 'B') = true
      · refine inv_of_frame st _ ?_ ?_ h <;> simp [normalModeStep, ht, hb]
      · by_cases hs : (c == 's' || c == 'S') = true
        · refine inv_of_frame st _ ?_ ?_ h <;>
            simp [normalModeStep, ht, hb, hs, update_search_results]
        · refine inv_of_frame st _ ?_ ?_ h <;> simp [normalModeStep, ht, hb, hs]
  case down =>
    refine inv_of_frame st _ ?_ ?_ h <;>
      by_cases hc : st.table_state.getD 0 + 1 < st.entries.length <;>
        simp [normalModeStep, hc]
  case enter =>
    refine inv_of_frame st _ ?_ ?_ h <;>
      simp [normalModeStep, (beginEdit_frame st).1, (beginEdit_frame st).2]
  all_goals refine inv_of_frame st _ ?_ ?_ h <;> simp [normalModeStep]

theorem editStep_inv (key : Key) (st : EditingState) (h : Inv st) :
    Inv (editStep key st) := by
  unfold editStep
  by_cases hmode : st.search_mode = true
  · rw [if_pos hmode]
    exact searchModeStep_inv key st h
  · rw [if_neg hmode]
    cases hed : st.editing with
    | some editing_index => exact fieldEditStep_inv key st editing_index h
    | none => exact normalModeStep_inv key st h

theorem count_buildEntries (m ex : List (String × Value)) (c : List String) :
    countTranslated (buildEntries m ex c) = translatedCountOf m c := by
  unfold countTranslated buildEntries translatedCountOf
  rw [List.filter_map, List.length_map]
  rfl

/-- C4: the `translated_keys` counter equals a live recount of the
`is_translated` flags: loading a document establishes the equality,
every editing-mode step preserves it, and the toggle adjusts the
counter by exactly plus or minus one as it flips the selected entry's
flag. -/
theorem session_counter_invariant :
    (∀ (p : FPath) (m ex : List (String × Value)) (c : List String),
       Inv (mkEditingState p m ex c)) ∧
    (∀ (key : Key) (st : EditingState), Inv st → Inv (editStep key st)) ∧
    (∀ (st : EditingState) (i : Nat) (e : Entry),
       st.table_state = some i → st.entries[i]? = some e →
       (toggle_translation st).translated_keys =
         (if e.is_translated then st.translated_keys - 1
          else st.translated_keys + 1)) := by
  refine ⟨?_, editStep_inv, ?_⟩
  · intro p m ex c
    unfold Inv mkEditingState
    exact (count_buildEntries m ex c).symm
  · intro st i e hts hge
    rw [toggle_translation_eq st i e hts hge]
    cases hf : e.is_translated <;> simp [hf]

/-- Concrete session for the C4 witness: one entry flagged translated,
counter 1, row 0 selected. -/
def c4State : EditingState :=
  { baseState with entries := [demoEntry "a" true], table_state := some 0,
                   total_keys := 1, translated_keys := 1 }

/-- Witness for C4: the invariant holds after a step on a concrete
session, and the toggle decrements the counter of a translated entry. -/
theorem session_counter_invariant_witness :
    Inv (mkEditingState { stem := "doc", ext := "json" }
      [("a", Value.str "Hello")] [] ["a"]) ∧
    Inv (editStep Key.up c4State) ∧
    (toggle_translation c4State).translated_keys =
      (if (demoEntry "a" true).is_translated then c4State.translated_keys - 1
       else c4State.translated_keys + 1) :=
  ⟨session_counter_invariant.1 _ _ _ _,
   session_counter_invariant.2.1 Key.up c4State (by decide),
   session_counter_invariant.2.2 c4State 0 (demoEntry "a" true) rfl rfl⟩

/-- C7: toggling the selected entry twice restores both that entry's
`is_translated` flag and the `translated_keys` counter (on a session
satisfying the counter invariant, which every reachable session does). -/
theorem toggle_twice_restores (st : EditingState) (i : Nat) (e : Entry)
    (hinv : Inv st) (hts : st.table_state = some i)
    (he : st.entries[i]? = some e) :
    ((toggle_translation (toggle_translation st)).entries[i]?).map
        (fun en => en.is_translated) = some e.is_translated ∧
    (toggle_translation (toggle_translation st)).translated_keys =
      st.translated_keys := by
  have hi : i < st.entries.length := (List.getElem?_eq_some.mp he).1
  have hstep1 := toggle_translation_eq st i e hts he
  have hget1 : (toggle_translation st).entries[i]? =
      some { e with is_translated := !e.is_translated } := by
    rw [hstep1]
    exact List.getElem?_set_eq_of_lt _ hi
  have hts1 : (toggle_translation st).table_state = some i := by
    rw [hstep1]
    exact hts
  have hstep2 := toggle_translation_eq (toggle_translation st) i
    { e with is_translated := !e.is_translated } hts1 hget1
  have hi1 : i < (toggle_translation st).entries.length := by
    rw [hstep1]
    simpa using hi
  constructor
  · rw [hstep2]
    show ((toggle_translation st).entries.set i
      { e with is_translated := !(!e.is_translated) })[i]?.map
        (fun en => en.is_translated) = some e.is_translated
    rw [List.getElem?_set_eq_of_lt _ hi1]
    simp
  · have hpos : e.is_translated = true → 1 ≤ st.translated_keys := by
      intro hf
      rw [hinv]
      exact countTranslated_pos st.entries i e he hf
    rw [hstep2]
    show (if !(!e.is_translated) then (toggle_translation st).translated_keys + 1
          else (toggle_translation st).translated_keys - 1) = st.translated_keys
    rw [hstep1]
    show (if !(!e.is_translated) then
            (if !e.is_translated then st.translated_keys + 1
             else st.translated_keys - 1) + 1
          else (if !e.is_translated then st.translated_keys + 1
                else st.translated_keys - 1) - 1) = st.translated_keys
    cases hf : e.is_translated with
    | false => simp [hf]
    | true =>
      have hp := hpos hf
      simp [hf]
      omega

/-- Witness for C7 at the concrete one-entry session. -/
theorem toggle_twice_restores_witness :
    ((toggle_translation (toggle_translation c4State)).entries[0]?).map
        (fun en => en.is_translated) = some (demoEntry "a" true).is_translated ∧
    (toggle_translation (toggle_translation c4State)).translated_keys =
      c4State.translated_keys :=
  toggle_twice_restores c4State 0 (demoEntry "a" true) (by decide) rfl rfl

theorem fsRead_set_ne (fs : List (FPath × FileContent)) (p q : FPath)
    (c : FileContent) (h : p ≠ q) : fsRead (fsSet fs p c) q = fsRead fs q := by
  induction fs with
  | nil =>
    simp only [fsSet, fsRead]
    rw [if_neg h]
  | cons qc t ih =>
    by_cases hq : qc.1 = p
    · simp only [fsSet, if_pos hq, fsRead]
      rw [if_neg (hq ▸ h), if_neg (hq ▸ h)]
    · simp only [fsSet, if_neg hq, fsRead]
      by_cases hq2 : qc.1 = q
      · rw [if_pos hq2, if_pos hq2]
      · rw [if_neg hq2, if_neg hq2, ih]

theorem mapInsert_fresh (acc : List (String × Value)) (k : String) (v : Value)
    (h : ∀ p ∈ acc, p.1 ≠ k) :
    mapInsert acc k v = acc ++ [(k, v)] := by
  unfold mapInsert
  rw [if_neg]
  intro hany
  rcases List.any_eq_true.mp hany with ⟨p, hp, hbeq⟩
  exact h p hp (by simpa using hbeq)

theorem foldl_mapInsert_fresh (entries : List Entry)
    (acc : List (String × Value))
    (hnodup : (entries.map (fun e => e.key)).Nodup)
    (hdisj : ∀ e ∈ entries, ∀ p ∈ acc, p.1 ≠ e.key) :
    entries.foldl (fun m e => mapInsert m e.key e.translated) acc =
      acc ++ entries.map (fun e => (e.key, e.translated)) := by
  induction entries generalizing acc with
  | nil => simp
  | cons e t ih =>
    rw [List.foldl_cons,
      mapInsert_fresh acc e.key e.translated
        (fun p hp => hdisj e (List.mem_cons_self e t) p hp)]
    rw [List.map_cons] at hnodup
    have hnd := (List.nodup_cons.mp hnodup).2
    have hhead : e.key ∉ t.map (fun en => en.key) := (List.nodup_cons.mp hnodup).1
    have hdisj2 : ∀ e1 ∈ t, ∀ p ∈ acc ++ [(e.key, e.translated)], p.1 ≠ e1.key := by
      intro e1 he1 p hp
      rcases List.mem_append.mp hp with hacc | hsing
      · exact hdisj e1 (List.mem_cons_of_mem e he1) p hacc
      · have hpk : p = (e.key, e.translated) := by simpa using hsing
        subst hpk
        intro hk
        refine hhead ?_
        rw [show e.key = e1.key from hk]
        exact List.mem_map_of_mem (fun en => en.key) he1
    rw [ih (acc ++ [(e.key, e.translated)]) hnd hdisj2]
    simp

theorem entriesMap_eq_map (entries : List Entry)
    (hnodup : (entries.map (fun e => e.key)).Nodup) :
    entriesMap entries = entries.map (fun e => (e.key, e.translated)) := by
  unfold entriesMap
  rw [foldl_mapInsert_fresh entries [] hnodup (by simp)]
  simp

theorem lookup_map_pairs (entries : List Entry)
    (hnodup : (entries.map (fun e => e.key)).Nodup) (e : Entry)
    (he : e ∈ entries) :
    (entries.map (fun en => (en.key, en.translated))).lookup e.key =
      some e.translated := by
  induction entries with
  | nil => cases he
  | cons a t ih =>
    rw [List.map_cons] at hnodup ⊢
    have hhead : a.key ∉ t.map (fun en => en.key) := (List.nodup_cons.mp hnodup).1
    rcases List.mem_cons.mp he with rfl | ht
    · simp [List.lookup]
    · have hne : (e.key == a.key) = false := by
        apply beq_eq_false_iff_ne.mpr
        intro hk
        exact hhead (hk ▸ List.mem_map_of_mem (fun en => en.key) ht)
      rw [List.lookup, hne]
      exact ih (List.nodup_cons.mp hnodup).2 ht

theorem withExtension_withExtension (p : FPath) (e1 e2 : String) :
    withExtension (withExtension p e1) e2 = withExtension p e2 := rfl

theorem snapshotPath_ne_txt (p : FPath) :
    snapshotPath p ≠ withExtension p "txt" := by
  intro h
  have := congrArg FPath.ext h
  simp [snapshotPath, withExtension] at this

theorem tomlPath_ne_txt (p : FPath) :
    withExtension p "toml" ≠ withExtension p "txt" := by
  intro h
  have := congrArg FPath.ext h
  simp [withExtension] at this

/-- C1: a successful `save_translated_json` performs exactly the
snapshot write — one key/translated-value pair for every entry,
`is_translated` or not — immediately followed by the ledger write
derived from the same entries (then, only after both, the legacy-file
cleanup); no snapshot write occurs without the ledger write in the same
call. -/
theorem save_snapshot_then_ledger (now : String) (st : EditingState) (w : World)
    (hnodup : (st.entries.map (fun e => e.key)).Nodup)
    (hsp : snapshotPath st.original_path ∉ w.failing)
    (htp : withExtension st.original_path "toml" ∉ w.failing)
    (htxt : withExtension st.original_path "txt" ∉ w.failing) :
    ∃ w1, save_translated_json now w st = .ok w1 ∧
      w1.trace = w.trace ++
        [FsOp.write (snapshotPath st.original_path)
           (FileContent.jsonObjFile (entriesMap st.entries)),
         FsOp.write (withExtension st.original_path "toml")
           (FileContent.ledgerFile
             { keys := (st.entries.filter (fun e => e.is_translated)).map
                 (fun e => e.key),
               last_updated := now })] ++
        (if fsExists w.fs (withExtension st.original_path "txt") then
          [FsOp.remove (withExtension st.original_path "txt")]
         else []) ∧
      entriesMap st.entries = st.entries.map (fun e => (e.key, e.translated)) ∧
      (entriesMap st.entries).length = st.entries.length ∧
      ∀ e ∈ st.entries, (entriesMap st.entries).lookup e.key = some e.translated := by
  have hmap := entriesMap_eq_map st.entries hnodup
  have hw1 : fsWrite w (snapshotPath st.original_path)
      (FileContent.jsonObjFile (entriesMap st.entries)) =
      .ok { w with
        fs := fsSet w.fs (snapshotPath st.original_path)
          (FileContent.jsonObjFile (entriesMap st.entries))
        trace := w.trace ++ [FsOp.write (snapshotPath st.original_path)
          (FileContent.jsonObjFile (entriesMap st.entries))] } := by
    unfold fsWrite
    rw [if_neg hsp]
  have hw2 : fsWrite
      { w with
        fs := fsSet w.fs (snapshotPath st.original_path)
          (FileContent.jsonObjFile (entriesMap st.entries))
        trace := w.trace ++ [FsOp.write (snapshotPath st.original_path)
          (FileContent.jsonObjFile (entriesMap st.entries))] }
      (withExtension st.original_path "toml")
      (FileContent.ledgerFile
        { keys := (st.entries.filter (fun e => e.is_translated)).map
            (fun e => e.key),
          last_updated := now }) =
      .ok { w with
        fs := fsSet (fsSet w.fs (snapshotPath st.original_path)
            (FileContent.jsonObjFile (entriesMap st.entries)))
          (withExtension st.original_path "toml")
          (FileContent.ledgerFile
            { keys := (st.entries.filter (fun e => e.is_translated)).map
                (fun e => e.key),
              last_updated := now })
        trace := (w.trace ++ [FsOp.write (snapshotPath st.original_path)
            (FileContent.jsonObjFile (entriesMap st.entries))]) ++
          [FsOp.write (withExtension st.original_path "toml")
            (FileContent.ledgerFile
              { keys := (st.entries.filter (fun e => e.is_translated)).map
                  (fun e => e.key),
                last_updated := now })] } := by
    unfold fsWrite
    rw [if_neg htp]
  have hfs2 : fsExists (fsSet (fsSet w.fs (snapshotPath st.original_path)
        (FileContent.jsonObjFile (entriesMap st.entries)))
      (withExtension st.original_path "toml")
      (FileContent.ledgerFile
        { keys := (st.entries.filter (fun e => e.is_translated)).map
            (fun e => e.key),
          last_updated := now }))
      (withExtension st.original_path "txt") =
      fsExists w.fs (withExtension st.original_path "txt") := by
    unfold fsExists
    rw [fsRead_set_ne _ _ _ _ (tomlPath_ne_txt st.original_path),
      fsRead_set_ne _ _ _ _ (snapshotPath_ne_txt st.original_path)]
  cases hex : fsExists w.fs (withExtension st.original_path "txt") with
  | false =>
    have hsave : save_translated_json now w st =
        .ok { w with
          fs := fsSet (fsSet w.fs (snapshotPath st.original_path)
              (FileContent.jsonObjFile (entriesMap st.entries)))
            (withExtension st.original_path "toml")
            (FileContent.ledgerFile
              { keys := (st.entries.filter (fun e => e.is_translated)).map
                  (fun e => e.key),
                last_updated := now })
          trace := (w.trace ++ [FsOp.write (snapshotPath st.original_path)
              (FileContent.jsonObjFile (entriesMap st.entries))]) ++
            [FsOp.write (withExtension st.original_path "toml")
              (FileContent.ledgerFile
                { keys := (st.entries.filter (fun e => e.is_translated)).map
                    (fun e => e.key),
                  last_updated := now })] } := by
      simp only [save_translated_json, save_translated_keys, hw1, hw2]
      rw [withExtension_withExtension, hfs2, hex]
      rw [if_neg (show ¬(false = true) by simp)]
    refine ⟨_, hsave, ?_, hmap, ?_, ?_⟩
    · simp [hex]
    · rw [hmap, List.length_map]
    · intro e he
      rw [hmap]
      exact lookup_map_pairs st.entries hnodup e he
  | true =>
    have hrem : fsRemove
        { w with
          fs := fsSet (fsSet w.fs (snapshotPath st.original_path)
              (FileContent.jsonObjFile (entriesMap st.entries)))
            (withExtension st.original_path "toml")
            (FileContent.ledgerFile
              { keys := (st.entries.filter (fun e => e.is_translated)).map
                  (fun e => e.key),
                last_updated := now })
          trace := (w.trace ++ [FsOp.write (snapshotPath st.original_path)
              (FileContent.jsonObjFile (entriesMap st.entries))]) ++
            [FsOp.write (withExtension st.original_path "toml")
              (FileContent.ledgerFile
                { keys := (st.entries.filter (fun e => e.is_translated)).map
                    (fun e => e.key),
                  last_updated := now })] }
        (withExtension st.original_path "txt") =
        .ok { w with
          fs := fsDel (fsSet (fsSet w.fs (snapshotPath st.original_path)
              (FileContent.jsonObjFile (entriesMap st.entries)))
            (withExtension st.original_path "toml")
            (FileContent.ledgerFile
              { keys := (st.entries.filter (fun e => e.is_translated)).map
                  (fun e => e.key),
                last_updated := now })) (withExtension st.original_path "txt")
          trace := ((w.trace ++ [FsOp.write (snapshotPath st.original_path)
              (FileContent.jsonObjFile (entriesMap st.entries))]) ++
            [FsOp.write (withExtension st.original_path "toml")
              (FileContent.ledgerFile
                { keys := (st.entries.filter (fun e => e.is_translated)).map
                    (fun e => e.key),
                  last_updated := now })]) ++
            [FsOp.remove (withExtension st.original_path "txt")] } := by
      unfold fsRemove
      rw [if_neg htxt]
    have hsave : save_translated_json now w st =
        .ok { w with
          fs := fsDel (fsSet (fsSet w.fs (snapshotPath st.original_path)
              (FileContent.jsonObjFile (entriesMap st.entries)))
            (withExtension st.original_path "toml")
            (FileContent.ledgerFile
              { keys := (st.entries.filter (fun e => e.is_translated)).map
                  (fun e => e.key),
                last_updated := now })) (withExtension st.original_path "txt")
          trace := ((w.trace ++ [FsOp.write (snapshotPath st.original_path)
              (FileContent.jsonObjFile (entriesMap st.entries))]) ++
            [FsOp.write (withExtension st.original_path "toml")
              (FileContent.ledgerFile
                { keys := (st.entries.filter (fun e => e.is_translated)).map
                    (fun e => e.key),
                  last_updated := now })]) ++
            [FsOp.remove (withExtension st.original_path "txt")] } := by
      simp only [save_translated_json, save_translated_keys, hw1, hw2]
      rw [withExtension_withExtension, hfs2, hex]
      rw [if_pos rfl]
      exact hrem
    refine ⟨_, hsave, ?_, hmap, ?_, ?_⟩
    · simp [hex]
    · rw [hmap, List.length_map]
    · intro e he
      rw [hmap]
      exact lookup_map_pairs st.entries hnodup e he

/-- Concrete session for the C1 witness: two entries, one translated,
one not. -/
def c1State : EditingState :=
  { baseState with
      entries := [demoEntry "a" true,
                  { key := "b", original := Value.str "World",
                    translated := Value.str "Mundo", is_translated := false }]
      table_state := some 0
      total_keys := 2
      translated_keys := 1 }

/-- Concrete world for the C1 witness: a legacy `doc.txt` ledger exists,
no failing paths. -/
def c1World : World :=
  { fs := [({ stem := "doc", ext := "txt" }, FileContent.textFile "a; b")]
    failing := []
    trace := [] }

/-- Witness for C1 at the concrete two-entry session. -/
theorem save_snapshot_then_ledger_witness :
    ∃ w1, save_translated_json "2024" c1World c1State = .ok w1 ∧
      w1.trace = c1World.trace ++
        [FsOp.write (snapshotPath c1State.original_path)
           (FileContent.jsonObjFile (entriesMap c1State.entries)),
         FsOp.write (withExtension c1State.original_path "toml")
           (FileContent.ledgerFile
             { keys := (c1State.entries.filter (fun e => e.is_translated)).map
                 (fun e => e.key),
               last_updated := "2024" })] ++
        (if fsExists c1World.fs (withExtension c1State.original_path "txt") then
          [FsOp.remove (withExtension c1State.original_path "txt")]
         else []) ∧
      entriesMap c1State.entries = c1State.entries.map (fun e => (e.key, e.translated)) ∧
      (entriesMap c1State.entries).length = c1State.entries.length ∧
      ∀ e ∈ c1State.entries, (entriesMap c1State.entries).lookup e.key =
        some e.translated :=
  save_snapshot_then_ledger "2024" c1State c1World (by decide)
    (by simp [c1World]) (by simp [c1World]) (by simp [c1World])

/-- C9: when the snapshot or ledger write fails during the save run by
the save-confirmation handler, the error is propagated to the caller
and the application state is returned exactly as it was at the failure
point: still in `SaveConfirmation` (no transition to `FileSelection` or
`Exiting`), with the editing session — entries and save notification —
untouched. -/
theorem save_error_leaves_state_unchanged (now msg : String) (app : App)
    (w : World) (conf : SaveConfirmationState) (st : EditingState)
    (e : String) (w2 : World)
    (hstate : app.state = AppState.SaveConfirmation)
    (hconf : app.save_confirmation = some conf)
    (hret : conf.return_to = AppState.Editing)
    (hed : app.editing = some st)
    (hfail : save_translated_json now w st = .error (e, w2)) :
    handle_save_confirmation now msg Key.enter app w = (.error e, app, w2) ∧
    (handle_save_confirmation now msg Key.enter app w).2.1.state =
      AppState.SaveConfirmation ∧
    (handle_save_confirmation now msg Key.enter app w).2.1.state ≠
      AppState.FileSelection ∧
    (handle_save_confirmation now msg Key.enter app w).2.1.state ≠
      AppState.Exiting ∧
    (handle_save_confirmation now msg Key.enter app w).2.1.editing =
      app.editing ∧
    (handle_save_confirmation now msg Key.enter app w).2.1.save_confirmation =
      app.save_confirmation := by
  have hsc : save_current_file now app w = (.error e, app, w2) := by
    simp only [save_current_file, hed, hfail]
  have hmain : handle_save_confirmation now msg Key.enter app w =
      (.error e, app, w2) := by
    simp only [handle_save_confirmation, hconf, hret, hsc]
    simp
  refine ⟨hmain, ?_, ?_, ?_, ?_, ?_⟩ <;> rw [hmain] <;> simp [hstate]

/-- Concrete session for the C9 witness. -/
def c9State : EditingState :=
  { baseState with entries := [demoEntry "a" false], table_state := some 0,
                   total_keys := 1 }

/-- Concrete application in `SaveConfirmation` for the C9 witness. -/
def c9App : App :=
  { state := AppState.SaveConfirmation
    editing := some c9State
    save_confirmation := some { message := "save and exit?",
                                return_to := AppState.Editing } }

/-- Concrete world for the C9 witness: the snapshot path fails to
write. -/
def c9World : World :=
  { fs := [], failing := [snapshotPath c9State.original_path], trace := [] }

/-- Witness for C9: the failing snapshot write propagates and the app
is returned unchanged. -/
theorem save_error_leaves_state_unchanged_witness :
    handle_save_confirmation "t" "save and exit?" Key.enter c9App c9World =
      (.error "write failed", c9App, c9World) ∧
    (handle_save_confirmation "t" "save and exit?" Key.enter c9App c9World).2.1.state =
      AppState.SaveConfirmation ∧
    (handle_save_confirmation "t" "save and exit?" Key.enter c9App c9World).2.1.state ≠
      AppState.FileSelection ∧
    (handle_save_confirmation "t" "save and exit?" Key.enter c9App c9World).2.1.state ≠
      AppState.Exiting ∧
    (handle_save_confirmation "t" "save and exit?" Key.enter c9App c9World).2.1.editing =
      c9App.editing ∧
    (handle_save_confirmation "t" "save and exit?" Key.enter c9App c9World).2.1.save_confirmation =
      c9App.save_confirmation :=
  save_error_leaves_state_unchanged "t" "save and exit?" c9App c9World
    { message := "save and exit?", return_to := AppState.Editing }
    c9State "write failed" c9World rfl rfl rfl rfl rfl

/-- Concrete world for C3: only the legacy semicolon ledger `doc.txt`
("a; b") exists; there is no `doc.toml`. -/
def c3World : World :=
  { fs := [({ stem := "doc", ext := "txt" }, FileContent.textFile "a; b")]
    failing := []
    trace := [] }

/-- The source document for C3. -/
def c3Map : List (String × Value) :=
  [("a", Value.str "Hello"), ("b", Value.str "World")]

/-- C3 (evaluation at the failing input): opening `doc.json` while only
the legacy ledger `doc.txt` = "a; b" exists yields both entries with
`is_translated = false` — the open flow reads only the `.toml` path, so
the legacy ledger is never consulted, although `load_translated_keys`
applied to the `.txt` path itself would return `["a", "b"]`; and the
next ledger save then writes the structured `doc.toml` and deletes
`doc.txt` (losing the never-read legacy keys). -/
theorem legacy_ledger_ignored_on_open :
    (openSession c3World { stem := "doc", ext := "json" } c3Map).map
        (fun st => st.entries.map (fun e => e.is_translated)) =
      .ok [false, false] ∧
    load_translated_keys c3World.fs { stem := "doc", ext := "txt" } =
      .ok ["a", "b"] ∧
    save_translated_keys "t" c3World { stem := "doc", ext := "toml" }
        (buildEntries c3Map [] []) =
      .ok { fs := [({ stem := "doc", ext := "toml" },
              FileContent.ledgerFile { keys := [], last_updated := "t" })]
            failing := []
            trace := [FsOp.write { stem := "doc", ext := "toml" }
                (FileContent.ledgerFile { keys := [], last_updated := "t" }),
              FsOp.remove { stem := "doc", ext := "txt" }] } :=
  ⟨rfl, rfl, rfl⟩

end Transtui
